import Mathlib

/-!
Verification development for the trust-verification engine in `Validation.py`
(class `ResponseValidator`).  The Python code is shallowly embedded:

* text is a `List Char` (ASCII inputs; Python's `\d`, `\s`, `\w`, `[A-Z]` and
  `str.lower` are modelled on their ASCII meaning, which is what every literal
  in the source and in the claims uses);
* Python floats are modelled as `ℚ` (every numeric literal appearing in the
  source and the claims is a short decimal, exactly representable, and all
  comparisons in the claims are far from any binary-rounding boundary);
* each regular expression of the source is hand-compiled to a deterministic
  matcher that is proved-equivalent-by-construction to the backtracking
  behaviour of the Python pattern (notes at each matcher);
* Python exceptions are modelled with `Except PyErr`; a `dict` result whose
  keys may be absent (`success_rate`, `valid`) uses `Option` fields.
-/

/-- Python `\s` (ASCII part): space, tab, newline, carriage return,
vertical tab, form feed. -/
def isPySpace (c : Char) : Bool :=
  c = ' ' || c = '\t' || c = '\n' || c = '\r' || c = Char.ofNat 11 || c = Char.ofNat 12

/-- ASCII lower-casing, modelling Python `str.lower` on ASCII text. -/
def lowerChar (c : Char) : Char :=
  if 'A' ≤ c && c ≤ 'Z' then Char.ofNat (c.toNat + 32) else c

/-- Python `str.lower` over our character-list text model. -/
def pyLower (s : List Char) : List Char := s.map lowerChar

/-- Case-insensitive literal test: does `s` start with `lit`
(`lit` given in lowercase)? -/
def ciStarts : List Char → List Char → Bool
  | _, [] => true
  | [], _ :: _ => false
  | c :: cs, l :: ls => lowerChar c = l && ciStarts cs ls

/-- Case-sensitive literal test: does `s` start with `lit`? -/
def litStarts : List Char → List Char → Bool
  | _, [] => true
  | [], _ :: _ => false
  | c :: cs, l :: ls => c = l && litStarts cs ls

/-- Python pySlice `text[a:b]` (for `a ≤ b`; clipping is inherited from
`List.drop`/`List.take`). -/
def pySlice (text : List Char) (a b : Nat) : List Char := (text.drop a).take (b - a)

/-- Python `str.strip()`: remove leading and trailing whitespace. -/
def pyStrip (s : List Char) : List Char :=
  ((s.dropWhile isPySpace).reverse.dropWhile isPySpace).reverse

/-- Reducible multiplication on `ℚ` (Batteries marks `Rat.mul` and friends
`@[irreducible]`, which would block kernel evaluation of the concrete runs
below; `mkRat` reduces).  `qMul_eq` below proves it is `*`. -/
def qMul (a b : ℚ) : ℚ := mkRat (a.num * b.num) (a.den * b.den)

/-- Reducible subtraction on `ℚ`; `qSub_eq` below proves it is `-`. -/
def qSub (a b : ℚ) : ℚ := mkRat (a.num * b.den - b.num * a.den) (a.den * b.den)

/-- Reducible absolute value on `ℚ`; `qAbs_eq` below proves it is `|·|`. -/
def qAbs (q : ℚ) : ℚ := mkRat q.num.natAbs q.den

/-- One regex match: start offset, end offset (Python `match.end()`),
`match.group(0)`, `match.group(1)`, and `match.group(2)` when the pattern
has two groups. -/
structure MRes where
  start : Nat
  stop : Nat
  m0 : List Char
  g1 : List Char
  g2 : Option (List Char)
deriving DecidableEq

/-- Matcher for the currency pattern `\$([0-9,]+(?:\.[0-9]{2})?)` at
position `i`.  The `[0-9,]+` run is maximal; the optional cents part can
only attach right after the maximal run (a shortened run ends at a digit or
comma, never at `.`), so the greedy backtracking search is this
deterministic cascade. -/
def matchCurrency (text : List Char) (i : Nat) : Option MRes :=
  match text.drop i with
  | '$' :: rest =>
    let run := rest.takeWhile (fun c => c.isDigit || c = ',')
    if run.isEmpty then none
    else
      match rest.drop run.length with
      | '.' :: d1 :: d2 :: _ =>
        if d1.isDigit && d2.isDigit then
          let g := run ++ '.' :: d1 :: [d2]
          some ⟨i, i + 1 + g.length, '$' :: g, g, none⟩
        else some ⟨i, i + 1 + run.length, '$' :: run, run, none⟩
      | _ => some ⟨i, i + 1 + run.length, '$' :: run, run, none⟩
  | _ => none

/-- The sub-matcher for `\s*\*?\*?(\d+\.?\d*)\*?\*?` starting at `k`
(the part of the ROI pattern after the optional connective).  Greedy
matching needs no backtracking here: whitespace, `*`, digits and `.` are
pairwise disjoint character classes, and everything after the mandatory
`\d+` is optional.  Returns `(group, stop)`. -/
def roiNumberPart (text : List Char) (k : Nat) : Option (List Char × Nat) :=
  let s := text.drop k
  let w := (s.takeWhile isPySpace).length
  let s1 := s.drop w
  let (st1, s2) := match s1 with | '*' :: r => (1, r) | _ => (0, s1)
  let (st2, s3) := match s2 with | '*' :: r => (1, r) | _ => (0, s2)
  let A := s3.takeWhile Char.isDigit
  if A.isEmpty then none
  else
    let s4 := s3.drop A.length
    let (tok, rest) :=
      match s4 with
      | '.' :: r => (A ++ '.' :: r.takeWhile Char.isDigit, r.drop (r.takeWhile Char.isDigit).length)
      | _ => (A, s4)
    let (st3, rest2) := match rest with | '*' :: r => (1, r) | _ => (0, rest)
    let st4 := match rest2 with | '*' :: _ => 1 | _ => 0
    some (tok, k + w + st1 + st2 + tok.length + st3 + st4)

/-- Matcher for the ROI pattern `(m?ROI)\s*(?:of|at|:|is)?\s*\*?\*?(\d+\.?\d*)\*?\*?`
with `re.IGNORECASE`.  `m?ROI` at a fixed position matches "mroi" when
present, else "roi" (backtracking from the `m` branch can never succeed,
since "roi" does not start with `m`).  The four connective alternatives
have pairwise distinct first characters, so at most one matches textually;
if its continuation fails the regex engine falls back to the empty
alternative.  The leading `\s*` never needs to backtrack because no later
element of the pattern can match a whitespace character. -/
def matchRoi (text : List Char) (i : Nat) : Option MRes :=
  let s := text.drop i
  let wl : Option Nat :=
    if ciStarts s ['m', 'r', 'o', 'i'] then some 4
    else if ciStarts s ['r', 'o', 'i'] then some 3
    else none
  match wl with
  | none => none
  | some n =>
    let g1 := s.take n
    let j := i + n
    let w1 := ((text.drop j).takeWhile isPySpace).length
    let j1 := j + w1
    let alts : List (List Char) := [['o', 'f'], ['a', 't'], [':'], ['i', 's']]
    let conn := alts.find? (fun a => ciStarts (text.drop j1) a)
    let r :=
      match conn with
      | some a =>
        match roiNumberPart text (j1 + a.length) with
        | some r => some r
        | none => roiNumberPart text j1
      | none => roiNumberPart text j1
    match r with
    | none => none
    | some (g2, stop) => some ⟨i, stop, pySlice text i stop, g1, some g2⟩

/-- The tail `(\d+\.?\d*)\s*%` at position `j` (used by the percentage and
saturation patterns).  The greedy `\d+\.?\d*` needs no backtracking: giving
back a digit or the dot would put `\s*%` on a digit or `.`, which can never
match.  Returns `(number group, stop)`. -/
def numPercentTail (text : List Char) (j : Nat) : Option (List Char × Nat) :=
  let s := text.drop j
  let A := s.takeWhile Char.isDigit
  if A.isEmpty then none
  else
    let s1 := s.drop A.length
    let (tok, s2) :=
      match s1 with
      | '.' :: r => (A ++ '.' :: r.takeWhile Char.isDigit, r.drop (r.takeWhile Char.isDigit).length)
      | _ => (A, s1)
    let ws := (s2.takeWhile isPySpace).length
    match s2.drop ws with
    | '%' :: _ => some (tok, j + tok.length + ws + 1)
    | _ => none

/-- Matcher for the percentage pattern `(\d+\.?\d*)\s*%`. -/
def matchPercent (text : List Char) (i : Nat) : Option MRes :=
  match numPercentTail text i with
  | none => none
  | some (tok, stop) => some ⟨i, stop, pySlice text i stop, tok, none⟩

/-- The lazy gap `.*?` of the saturation pattern followed by its tail:
starting from `j`, find the first position (crossing no newline, since `.`
does not match `\n`) where `(\d+\.?\d*)\s*%` matches.  Fuel-based recursion
on the remaining text length. -/
def satGap (text : List Char) : Nat → Nat → Option (List Char × Nat)
  | _, 0 => none
  | j, fuel + 1 =>
    match numPercentTail text j with
    | some r => some r
    | none =>
      match text.drop j with
      | [] => none
      | c :: _ => if c = '\n' then none else satGap text (j + 1) fuel

/-- Matcher for the saturation pattern `(saturation|saturated).*?(\d+\.?\d*)\s*%`
with `re.IGNORECASE` (no DOTALL: the lazy gap stops at a newline).  The two
alternatives differ at their eighth character, so at most one matches. -/
def matchSaturation (text : List Char) (i : Nat) : Option MRes :=
  let s := text.drop i
  let wl : Option Nat :=
    if ciStarts s ['s', 'a', 't', 'u', 'r', 'a', 't', 'i', 'o', 'n'] then some 10
    else if ciStarts s ['s', 'a', 't', 'u', 'r', 'a', 't', 'e', 'd'] then some 9
    else none
  match wl with
  | none => none
  | some n =>
    match satGap text (i + n) (text.length + 1) with
    | none => none
    | some (tok, stop) => some ⟨i, stop, pySlice text i stop, s.take n, some tok⟩

/-- Matcher for the bare-number pattern `(?<!\$)(\d+\.?\d+)`.  Greedy
backtracking of `\d+\.?\d+` over a maximal digit run `A` (followed by an
optional `.B` digit run) resolves to: match `A.B` when a dot with at least
one digit follows `A`, else match `A` when `A` has at least two digits,
else fail.  The look-behind (`precededByDollar`) rejects a start position
preceded by `$`. -/
def precededByDollar (text : List Char) : Nat → Bool
  | 0 => false
  | k + 1 => ((text.drop k).head? == some '$')

def matchNumber (text : List Char) (i : Nat) : Option MRes :=
  if precededByDollar text i then none
  else
    let s := text.drop i
    let A := s.takeWhile Char.isDigit
    if A.isEmpty then none
    else
      match s.drop A.length with
      | '.' :: d :: r =>
        if d.isDigit then
          let B := d :: r.takeWhile Char.isDigit
          let tok := A ++ '.' :: B
          some ⟨i, i + tok.length, tok, tok, none⟩
        else if 2 ≤ A.length then some ⟨i, i + A.length, A, A, none⟩
        else none
      | _ =>
        if 2 ≤ A.length then some ⟨i, i + A.length, A, A, none⟩
        else none

/-- `re.finditer` scanning loop: try a match at each position, and continue
after the end of each (non-empty) match.  Every matcher above consumes at
least one character, so fuel `len + 2` suffices. -/
def finditerAux (m : Nat → Option MRes) (len : Nat) : Nat → Nat → List MRes
  | _, 0 => []
  | i, fuel + 1 =>
    if len < i then []
    else
      match m i with
      | some r => r :: finditerAux m len r.stop fuel
      | none => finditerAux m len (i + 1) fuel

/-- `re.finditer(pattern, text)` for one of the hand-compiled matchers. -/
def pyFinditer (m : List Char → Nat → Option MRes) (text : List Char) : List MRes :=
  finditerAux (m text) text.length 0 (text.length + 2)

/-- One numeric claim, as built by `extract_numerical_claims` (the field
`prefix` of the Python dict is called `claimPrefix`, since `prefix` is a
Lean keyword). -/
structure Claim where
  display_value : String
  raw_number : ℚ
  context : String
  claim_type : String
  claimPrefix : String
  position : Nat
deriving DecidableEq

/-- The deduplication key `(raw_number, claim_type)` used by the
`proccessed_num` set of the source. -/
def claimKey (c : Claim) : ℚ × String := (c.raw_number, c.claim_type)

/-- `_is_list_marker` / `_is_list_number`: a single digit whose following
10-character window matches `^\.\s+[A-Z]`.  Inside the window the greedy
`\s+` is maximal (shrinking it would put `[A-Z]` on a whitespace
character), and the `[A-Z]` must fall inside the window. -/
def isListMarker (numberStr : List Char) (fullText : List Char) (pos : Nat) : Bool :=
  match numberStr with
  | [c] =>
    if c.isDigit then
      let endPos := pos + 1
      if endPos < fullText.length then
        match (fullText.drop endPos).take 10 with
        | '.' :: r =>
          let ws := r.takeWhile isPySpace
          if ws.isEmpty then false
          else
            match r.drop ws.length with
            | u :: _ => u.isUpper
            | [] => false
        | _ => false
      else false
    else false
  | _ => false

/-- The `replace(',', '').replace('$', '')` cleaning step. -/
def cleanNumber (s : List Char) : List Char := s.filter (fun c => c ≠ ',' && c ≠ '$')

/-- Digit-string to natural number. -/
def digitsToNat (s : List Char) : Nat := s.foldl (fun n c => 10 * n + (c.toNat - '0'.toNat)) 0

/-- Python `float(s)` for the cleaned number strings this program can
produce (strings over digits and at most one dot; anything else those
strings could degenerate to — e.g. an empty string from an all-comma
currency group — raises `ValueError`, modelled as `none`). -/
def parseDecimal (s : List Char) : Option ℚ :=
  if s.all (fun c => c.isDigit || c = '.') && s.any Char.isDigit
      && (s.filter (fun c => c = '.')).length ≤ 1 then
    let ip := s.takeWhile Char.isDigit
    match s.drop ip.length with
    | [] => some (mkRat (digitsToNat ip) 1)
    | '.' :: fp => some (mkRat (digitsToNat (ip ++ fp)) (10 ^ fp.length))
    | _ => none
  else none

/-- The ordered `(matcher, claim_type)` table of `extract_numerical_claims`. -/
def matcherList : List ((List Char → Nat → Option MRes) × String) :=
  [(matchCurrency, "currency"), (matchRoi, "roi_metric"), (matchPercent, "percentage"),
   (matchSaturation, "saturation"), (matchNumber, "number")]

/-- Per-match body of the extraction loop, up to (but not including) the
deduplication test: group selection, the list-marker filter, `float`
parsing, and the context window `text[max(0, start-80) : min(len, end+80)]`
(`Nat` subtraction is the `max(0, ·)`). -/
def candidateOfMatch (text : List Char) (ty : String) (m : MRes) : Option Claim :=
  let (numberStr, pfx) :=
    match m.g2 with
    | some g2 => (g2, m.g1)
    | none => (m.g1, ([] : List Char))
  if isListMarker numberStr text m.start then none
  else
    match parseDecimal (cleanNumber numberStr) with
    | none => none
    | some raw =>
      let s := m.start - 80
      let e := min text.length (m.stop + 80)
      some { display_value := String.mk m.m0, raw_number := raw,
             context := String.mk (pyStrip (pySlice text s e)),
             claim_type := ty, claimPrefix := String.mk pfx, position := m.start }

/-- All candidate claims in processing order: patterns in table order, and
for each pattern its `finditer` matches in text order, filtered by the
list-marker test and `float` parsing. -/
def extractCandidates (text : List Char) : List Claim :=
  matcherList.flatMap (fun p => (pyFinditer p.1 text).filterMap (candidateOfMatch text p.2))

/-- The `proccessed_num` set-based deduplication: a candidate is kept iff
its `(raw_number, claim_type)` key has not been seen, and keeping it adds
its key to the seen set. -/
def dedupAux : List (ℚ × String) → List Claim → List Claim
  | _, [] => []
  | seen, c :: cs =>
    if claimKey c ∈ seen then dedupAux seen cs
    else c :: dedupAux (claimKey c :: seen) cs

/-- `ResponseValidator.extract_numerical_claims`. -/
def extractNumericalClaims (text : String) : List Claim :=
  dedupAux [] (extractCandidates text.data)

/-- Python exceptions that the embedded functions can raise. -/
inductive PyErr where
  | keyError : String → PyErr
  | typeError : PyErr
  | attributeError : PyErr
deriving DecidableEq

/-- The JSON-like shape of the source dataset: dicts (insertion-ordered),
lists, numbers (`int`/`float`, as `ℚ`), strings, and `None`. -/
inductive JValue where
  | obj : List (String × JValue) → JValue
  | arr : List JValue → JValue
  | num : ℚ → JValue
  | str : String → JValue
  | null : JValue

/-- First binding for a key (Python dict keys are unique, so first = only). -/
def lookupField : List (String × JValue) → String → Option JValue
  | [], _ => none
  | kv :: rest, key => if kv.1 = key then some kv.2 else lookupField rest key

/-- `d.get(k, dflt)`; calling `.get` on a non-dict raises `AttributeError`. -/
def dictGet (d : JValue) (k : String) (dflt : JValue) : Except PyErr JValue :=
  match d with
  | .obj fs => pure ((lookupField fs k).getD dflt)
  | _ => throw .attributeError

/-- `d[k]` on a dict: `KeyError` when absent; indexing a non-dict value with
a string key raises `TypeError`. -/
def dictIndex (d : JValue) (k : String) : Except PyErr JValue :=
  match d with
  | .obj fs =>
    match lookupField fs k with
    | some v => pure v
    | none => throw (.keyError k)
  | _ => throw .typeError

/-- A value consumed by `.lower()`: anything but a string raises
`AttributeError` (which `except (KeyError, TypeError)` does not catch). -/
def expectStr (v : JValue) : Except PyErr String :=
  match v with
  | .str s => pure s
  | _ => throw .attributeError

/-- Iterating the `channels` value as a list of records; other shapes make
the Python loops fail (modelled as `TypeError`). -/
def asList (v : JValue) : Except PyErr (List JValue) :=
  match v with
  | .arr xs => pure xs
  | _ => throw .typeError

/-- `source_data.get('channels', [])` followed by iteration. -/
def getChannels (d : JValue) : Except PyErr (List JValue) := do
  asList (← dictGet d "channels" (.arr []))

/-- Round-half-to-even to an integer (the tie rule of Python `round`);
the floor is computed as `num.fdiv den` so the definition evaluates by
kernel reduction. -/
def roundHalfEven (q : ℚ) : ℤ :=
  let f : ℤ := q.num.fdiv (q.den : ℤ)
  let r : ℚ := qSub q (mkRat f 1)
  if r < mkRat 1 2 then f
  else if mkRat 1 2 < r then f + 1
  else if f % 2 = 0 then f else f + 1

/-- Python `round(q, 2)`. -/
def pyRound2 (q : ℚ) : ℚ := mkRat (roundHalfEven (qMul q (mkRat 100 1))) 100

/-- `re.findall(r'\d+\.?\d*', s)` scanning: at each digit a maximal digit
run, an optional dot, and a maximal (possibly empty) second digit run;
non-overlapping, left to right.  Fuel-based recursion. -/
def findallDecimalAux : Nat → List Char → List (List Char)
  | 0, _ => []
  | _, [] => []
  | fuel + 1, c :: rest =>
    if c.isDigit then
      let A := (c :: rest).takeWhile Char.isDigit
      match (c :: rest).drop A.length with
      | '.' :: r2 =>
        let B := r2.takeWhile Char.isDigit
        (A ++ '.' :: B) :: findallDecimalAux fuel (r2.drop B.length)
      | r1 => A :: findallDecimalAux fuel r1
    else findallDecimalAux fuel rest

/-- `re.findall(r'\d+\.?\d*', s)`. -/
def findallDecimal (s : List Char) : List (List Char) := findallDecimalAux (s.length + 1) s

mutual

/-- `_extract_source_numbers`: recursively flatten the dataset into the bag
of numbers; a numeric leaf `q` contributes itself and, when `0 < q < 1`,
also `round(q * 100, 2)`; a string leaf contributes its parsed decimal
substrings. -/
def extractSourceNumbers : JValue → List ℚ
  | .obj fs => extractFieldNumbers fs
  | .arr xs => extractItemNumbers xs
  | .num q => q :: (if 0 < q ∧ q < 1 then [pyRound2 (qMul q (mkRat 100 1))] else [])
  | .str s => (findallDecimal s.data).filterMap parseDecimal
  | .null => []

/-- Flatten the values of a dict, in insertion order. -/
def extractFieldNumbers : List (String × JValue) → List ℚ
  | [] => []
  | kv :: rest => extractSourceNumbers kv.2 ++ extractFieldNumbers rest

/-- Flatten the items of a list, in order. -/
def extractItemNumbers : List JValue → List ℚ
  | [] => []
  | v :: rest => extractSourceNumbers v ++ extractItemNumbers rest

end

/-- An entry of `verified_claims`. -/
structure VerifiedClaim where
  display_value : String
  raw_number : ℚ
  matched_source : ℚ
  context : String
deriving DecidableEq

/-- An entry of `errors`. -/
structure ClaimError where
  display_value : String
  raw_number : ℚ
  context : String
  message : String
deriving DecidableEq

/-- The result dict of `validate_claims`.  `success_rate` and `valid` are
`Option`s because the early return for an empty claims list leaves both
keys absent. -/
structure ClaimsResult where
  total_claims : Nat
  verified : Nat
  unverified : Nat
  errors : List ClaimError
  warnings : List String
  verified_claims : List VerifiedClaim
  success_rate : Option ℚ
  valid : Option Bool
deriving DecidableEq

/-- `claim['context'][:100] + "..."` when longer than 100 characters. -/
def truncContext (s : String) : String :=
  if 100 < s.data.length then String.mk (s.data.take 100) ++ "..." else s

/-- One iteration of the claim-validation loop: the first source number
within absolute tolerance `0.001` verifies the claim, otherwise an error
entry is recorded. -/
def claimsStep (sourceNumbers : List ℚ) (r : ClaimsResult) (c : Claim) : ClaimsResult :=
  match sourceNumbers.find? (fun s => decide (qAbs (qSub c.raw_number s) < mkRat 1 1000)) with
  | some s =>
    { r with verified := r.verified + 1,
             verified_claims := r.verified_claims ++
               [⟨c.display_value, c.raw_number, s, truncContext c.context⟩] }
  | none =>
    { r with unverified := r.unverified + 1,
             errors := r.errors ++
               [⟨c.display_value, c.raw_number, truncContext c.context,
                 "Number not found in source data"⟩] }

/-- `ResponseValidator.validate_claims`.  Note the early return: for an
empty claims list the result is returned before `success_rate` and `valid`
are ever written (the `else: success_rate = 0.0` branch of the source is
unreachable). -/
def validateClaims (claims : List Claim) (sourceData : JValue) : ClaimsResult :=
  let base : ClaimsResult := ⟨claims.length, 0, 0, [], [], [], none, none⟩
  if claims.isEmpty then base
  else
    let sourceNumbers := extractSourceNumbers sourceData
    let r := claims.foldl (claimsStep sourceNumbers) base
    let rate : ℚ := if 0 < r.total_claims then mkRat r.verified r.total_claims else 0
    { r with success_rate := some rate, valid := some (decide (mkRat 7 10 < rate)) }

/-- Python substring test `needle in hay`. -/
def pyIn (needle : List Char) : List Char → Bool
  | [] => needle.isEmpty
  | c :: t => litStarts (c :: t) needle || pyIn needle t

/-- Python `\w` (ASCII part), for the `\b` word boundaries of the metric
patterns. -/
def isWordChar (c : Char) : Bool := c.isAlphanum || c = '_'

/-- Scan for `\b alt \b` (with `alt` a literal that starts and ends with a
word character): an occurrence of `alt` whose previous character (if any)
and following character (if any) are non-word characters. -/
def occursAsWordAux (alt : List Char) (prev : Option Char) : List Char → Bool
  | [] => false
  | c :: t =>
    (litStarts (c :: t) alt
      && (match prev with | none => true | some p => !isWordChar p)
      && (match (c :: t).drop alt.length with | [] => true | nx :: _ => !isWordChar nx))
    || occursAsWordAux alt (some c) t

/-- `re.search(r'\b(alt)\b', hay)` succeeds (existence only: the hit
position is never used by the source). -/
def occursAsWord (alt : List Char) (hay : List Char) : Bool := occursAsWordAux alt none hay

/-- The `metric_patterns` table set up in `__init__`, each regex given by
its ordered alternative literals (all lowercase, matched against the
lower-cased question). -/
def metricPatterns : List (String × List String) :=
  [("roi", ["roi", "return on investment", "return on ad spend"]),
   ("mroi", ["marginal roi", "mroi", "incremental roi"]),
   ("contribution", ["contribution", "percent contribution", "contributed", "share"]),
   ("spend", ["spend", "investment", "cost", "budget"]),
   ("revenue", ["revenue", "incremental revenue", "value"])]

/-- `ResponseValidator.extract_metric_from_question`: first metric (in
declaration order) whose pattern matches the lower-cased question. -/
def extractMetricFromQuestion (q : String) : Option String :=
  let ql := pyLower q.data
  (metricPatterns.find? (fun p => p.2.any (fun a => occursAsWord a.data ql))).map Prod.fst

/-- The loop of `extract_channel_name`: first channel whose `name` or `id`
(lower-cased) occurs in the lower-cased question; returns that channel's
`name`.  `ch['id']` is only read when the name test fails (short-circuit
`or`). -/
def extractChannelNameLoop (ql : List Char) : List JValue → Except PyErr (Option String)
  | [] => pure none
  | ch :: rest => do
    let name ← expectStr (← dictIndex ch "name")
    if pyIn (pyLower name.data) ql then pure (some name)
    else
      let cid ← expectStr (← dictIndex ch "id")
      if pyIn (pyLower cid.data) ql then pure (some name)
      else extractChannelNameLoop ql rest

/-- `ResponseValidator.extract_channel_name`. -/
def extractChannelName (q : String) (d : JValue) : Except PyErr (Option String) := do
  extractChannelNameLoop (pyLower q.data) (← getChannels d)

/-- `channel.get(metric, None)` for a channel already known to be a dict,
with a stored `None` collapsed to `none` (both read back as Python `None`). -/
def chGet (ch : JValue) (k : String) : Option JValue :=
  match ch with
  | .obj fs =>
    match lookupField fs k with
    | some .null => none
    | v => v
  | _ => none

/-- The loop of `query_source_data`: find the channel matching
`channel_name` case-insensitively by `name` or `id` and return
`channel.get(metric, None)` for it (a stored `None` value and a missing key
are the same to the caller's `is None` test).  A falsy (empty)
`channel_name` never matches. -/
def qsdLoop (metric chName : String) : List JValue → Except PyErr (Option JValue)
  | [] => pure none
  | ch :: rest =>
    if chName = "" then qsdLoop metric chName rest
    else do
      let name ← expectStr (← dictIndex ch "name")
      if pyLower name.data = pyLower chName.data then
        pure (chGet ch metric)
      else do
        let cid ← expectStr (← dictIndex ch "id")
        if pyLower cid.data = pyLower chName.data then pure (chGet ch metric)
        else qsdLoop metric chName rest

/-- `ResponseValidator.query_source_data`: the `try` block catches
`KeyError` and `TypeError` (returning `None`); an `AttributeError` (e.g.
`.get` on a non-dict `source_data`, or `.lower()` on a non-string name)
propagates. -/
def querySourceData (metric chName : String) (d : JValue) : Except PyErr (Option JValue) :=
  let body : Except PyErr (Option JValue) :=
    match d with
    | .obj fs =>
      match (lookupField fs "channels").getD (.arr []) with
      | .arr chs => qsdLoop metric chName chs
      | _ => throw .typeError
    | _ => throw .attributeError
  match body with
  | .error (.keyError _) => pure none
  | .error .typeError => pure none
  | .error e => throw e
  | .ok v => pure v

/-- A ground-truth value used in the arithmetic comparison of
`validate_specific_query`: anything non-numeric raises `TypeError`. -/
def expectNum (v : JValue) : Except PyErr ℚ :=
  match v with
  | .num q => pure q
  | _ => throw .typeError

/-- The result dict of `validate_specific_query`: either the inconclusive
shape `{specific_validation: False, reason}` or the full shape
`{specific_validation: True, metric, channel, true_value,
found_in_response, numbers_in_response}`.  Neither carries a `valid` key. -/
inductive SpecificResult where
  | inconclusive : String → SpecificResult
  | ok : String → String → ℚ → Bool → List ℚ → SpecificResult
deriving DecidableEq

/-- `ResponseValidator.validate_specific_query`. -/
def validateSpecificQuery (userQuestion aiResponse chName : String) (d : JValue) :
    Except PyErr SpecificResult := do
  let targetMetric := extractMetricFromQuestion userQuestion
  let chName2 ← if chName = "" then extractChannelName userQuestion d else pure (some chName)
  match targetMetric, chName2 with
  | some m, some cn =>
    if cn = "" then pure (.inconclusive "Could not identify specific metric or channel")
    else do
      match ← querySourceData m cn d with
      | none => pure (.inconclusive "Could not find metric in source data")
      | some tv => do
        let v ← expectNum tv
        let nums := (findallDecimal aiResponse.data).filterMap parseDecimal
        let found := nums.any (fun n => decide (qAbs (qSub n v) < mkRat 1 100))
        pure (.ok m cn v found nums)
  | _, _ => pure (.inconclusive "Could not identify specific metric or channel")

/-- The result dict of `validate_ranking`: a normal ranking result
`{validation_type, metric, ai_mentioned_channels, true_top_5_channels,
overlap_count, is_plausible}` (no `valid` key) or the guarded failure
`{validation_type: "ranking", valid: False, error}`. -/
inductive RankingResult where
  | ok : String → List String → List String → Nat → Bool → RankingResult
  | failed : String → RankingResult
deriving DecidableEq

/-- The mention-collection loop of `validate_ranking` (before the `try`
block): channel names, in dataset order, whose lower-cased name occurs in
the lower-cased response.  `ch['name']` here is not guarded by any
`except`. -/
def mentionedLoop (aiLower : List Char) : List JValue → Except PyErr (List String)
  | [] => pure []
  | ch :: rest => do
    let name ← expectStr (← dictIndex ch "name")
    let tail ← mentionedLoop aiLower rest
    if pyIn (pyLower name.data) aiLower then pure (name :: tail) else pure tail

/-- The sort key `lambda x: x.get(ranking_metric, 0)`: a missing metric
silently defaults to `0` (dict `.get` raises no `KeyError`).  Metric values
are numbers per the interface shape of the dataset. -/
def rankKey (metric : String) (ch : JValue) : ℚ :=
  match ch with
  | .obj fs =>
    match lookupField fs metric with
    | some (.num q) => q
    | _ => 0
  | _ => 0

/-- Stable descending insertion: an element goes before the first earlier-
inserted element whose key is not larger, so original order is kept among
equal keys — the behaviour of Python `sorted(..., reverse=True)`. -/
def insertDesc (key : JValue → ℚ) (x : JValue) : List JValue → List JValue
  | [] => [x]
  | y :: ys => if key y ≤ key x then x :: y :: ys else y :: insertDesc key x ys

/-- `sorted(all_channels, key=..., reverse=True)` (stable). -/
def sortDesc (key : JValue → ℚ) : List JValue → List JValue
  | [] => []
  | x :: xs => insertDesc key x (sortDesc key xs)

/-- `[ch['name'] for ch in truly_top_channels]` — the only statement of the
guarded block that can raise `KeyError`. -/
def namesOf : List JValue → Except PyErr (List String)
  | [] => pure []
  | ch :: rest => do
    let n ← expectStr (← dictIndex ch "name")
    pure (n :: (← namesOf rest))

/-- Distinct elements kept in first-occurrence order. -/
def dedupSeen {α : Type} [DecidableEq α] : List α → List α → List α
  | _, [] => []
  | seen, x :: xs =>
    if x ∈ seen then dedupSeen seen xs else x :: dedupSeen (x :: seen) xs

/-- `len(set(a) & set(b))`: the number of distinct values present in both. -/
def distinctCommon {α : Type} [DecidableEq α] (a b : List α) : Nat :=
  ((dedupSeen [] a).filter (fun x => decide (x ∈ b))).length

/-- `ResponseValidator.validate_ranking`.  The `except KeyError` branch can
fire only for a `KeyError` inside the `try` block; the sort key uses
`.get` (never a `KeyError`) and `ch['name']` was already read for every
channel by the mention loop above, so the branch is in fact dead (proved
below). -/
def validateRanking (aiResponse rankingMetric : String) (d : JValue) :
    Except PyErr RankingResult := do
  let chs ← getChannels d
  let mentioned ← mentionedLoop (pyLower aiResponse.data) chs
  let sortedChs := sortDesc (rankKey rankingMetric) chs
  match namesOf sortedChs with
  | .error (.keyError _) =>
    pure (.failed ("Metric '" ++ rankingMetric ++ "' not found in data"))
  | .error e => throw e
  | .ok trulyTopNames =>
    let aiList := mentioned
    let overlap := distinctCommon aiList (trulyTopNames.take aiList.length)
    pure (.ok rankingMetric aiList (trulyTopNames.take 5) overlap (decide (3 ≤ overlap)))

/-- The merged adaptive result, tagged by which validator ran (the
`strategy` key of the source). -/
inductive AdaptiveResult where
  | specific : SpecificResult → AdaptiveResult
  | ranking : RankingResult → AdaptiveResult
  | general : ClaimsResult → AdaptiveResult
deriving DecidableEq

/-- The `strategy` tag written by `validate_adaptive`. -/
def strategyOf : AdaptiveResult → String
  | .specific _ => "specific_metric"
  | .ranking _ => "ranking"
  | .general _ => "general_fact_check"

/-- `adaptive_result.get("valid", ...)`: the `valid` key of each result
shape.  Only the (dead) ranking failure dict and a general fact-check over
a non-empty claims list carry one. -/
def adaptiveValidKey : AdaptiveResult → Option Bool
  | .specific _ => none
  | .ranking (.ok _ _ _ _ _) => none
  | .ranking (.failed _) => some false
  | .general r => r.valid

/-- The `ranking_metrics` list of `validate_adaptive`. -/
def rankingMetricTokens : List String := ["roi", "mroi", "contribution_pct", "spend"]

/-- The ranking keywords tested (as substrings) by `validate_adaptive`. -/
def rankingKeywords : List String := ["top", "best", "worst", "lowest"]

/-- `any(word in user_question.lower() for word in ["top","best","worst","lowest"])`. -/
def hasRankingKeyword (ql : List Char) : Bool := rankingKeywords.any (fun w => pyIn w.data ql)

/-- `ResponseValidator.validate_adaptive`.  The ranking loop re-tests the
iteration-independent keyword disjunct at every metric, so a ranking
keyword selects the first metric `"roi"` no matter which metric token the
question contains. -/
def validateAdaptive (aiResponse : String) (d : JValue) (userQuestion chName : String) :
    Except PyErr AdaptiveResult := do
  match extractMetricFromQuestion userQuestion with
  | some _ => do
    pure (.specific (← validateSpecificQuery userQuestion aiResponse chName d))
  | none =>
    let ql := pyLower userQuestion.data
    match rankingMetricTokens.find? (fun m => pyIn m.data ql || hasRankingKeyword ql) with
    | some m => do
      pure (.ranking (← validateRanking aiResponse m d))
    | none =>
      pure (.general (validateClaims (extractNumericalClaims aiResponse) d))

/-- The merged report of `validate_response`. -/
structure ValidationReport where
  adaptive_validation : AdaptiveResult
  general_validation : ClaimsResult
  overall_valid : Bool
deriving DecidableEq

/-- `ResponseValidator.validate_response`: run the adaptive validation and
the general fact-check, then merge.  `general_validation["valid"]` is a
plain dict index: when the extractor found no claims the key is absent and
a `KeyError` escapes. -/
def validateResponse (aiResponse : String) (d : JValue) (userQuestion chName : String) :
    Except PyErr ValidationReport := do
  let adaptiveResult ← validateAdaptive aiResponse d userQuestion chName
  let claims := extractNumericalClaims aiResponse
  let generalValidation := validateClaims claims d
  match generalValidation.valid with
  | none => throw (.keyError "valid")
  | some gv =>
    pure ⟨adaptiveResult, generalValidation, gv && (adaptiveValidKey adaptiveResult).getD true⟩

/-- Equality on `Except` results is decidable componentwise (used to
evaluate concrete runs). -/
instance {e a : Type} [DecidableEq e] [DecidableEq a] : DecidableEq (Except e a) := fun x y =>
  match x, y with
  | .error e1, .error e2 =>
    if h : e1 = e2 then .isTrue (by rw [h])
    else .isFalse (by intro hc; cases hc; exact h rfl)
  | .error _, .ok _ => .isFalse (by intro hc; cases hc)
  | .ok _, .error _ => .isFalse (by intro hc; cases hc)
  | .ok a1, .ok a2 =>
    if h : a1 = a2 then .isTrue (by rw [h])
    else .isFalse (by intro hc; cases hc; exact h rfl)

/-- Does a ranking result carry the `{valid: False, error: ...}` failure
shape? -/
def RankingResult.isFailed : RankingResult → Bool
  | .failed _ => true
  | .ok _ _ _ _ _ => false

/-- The metric the ranking branch of the spec's dispatcher description
would use.  Modelled from the spec: "run Ranking Validator using the first
matching metric token (default `roi` if only a ranking keyword matched, no
metric token)" — a refinement definition following the claim's words, to be
compared with the code's `validate_adaptive`. -/
def specPredictedRankingMetric (q : String) : Option String :=
  let ql := pyLower q.data
  if rankingMetricTokens.any (fun m => pyIn m.data ql) then
    rankingMetricTokens.find? (fun m => pyIn m.data ql)
  else if hasRankingKeyword ql then some "roi"
  else none

/-- The metric the code's ranking loop actually selects: the first token
whose per-iteration condition `metric in q or any(keyword in q)` holds. -/
def codeRankingMetric (q : String) : Option String :=
  let ql := pyLower q.data
  rankingMetricTokens.find? (fun m => pyIn m.data ql || hasRankingKeyword ql)

/-- Distinct `(raw_number, claim_type)` keys in first-occurrence order —
the reference description of "first occurrence wins" deduplication, stated
independently of the extraction loop. -/
def firstOccurrences : List (ℚ × String) → List (ℚ × String)
  | [] => []
  | x :: xs => x :: firstOccurrences (xs.filter (fun y => y ≠ x))
termination_by l => l.length
decreasing_by
  simp only [List.length_cons]
  exact Nat.lt_succ_of_le (List.length_filter_le _ _)

/-- A numeric leaf with value `q` occurring somewhere inside a dataset
value. -/
inductive NumLeaf (q : ℚ) : JValue → Prop where
  | here : NumLeaf q (.num q)
  | inObj (k : String) (v : JValue) (fs : List (String × JValue)) :
      (k, v) ∈ fs → NumLeaf q v → NumLeaf q (.obj fs)
  | inArr (v : JValue) (xs : List JValue) :
      v ∈ xs → NumLeaf q v → NumLeaf q (.arr xs)

/-- A well-shaped sample dataset (the external-interface shape of §6 of the
spec: a `channels` list of records with `name`, `id` and numeric metrics,
plus scalar metadata), used for the concrete runs below. -/
def sampleData : JValue := .obj
  [("model_version", .str "v1"), ("period", .str "Q1"),
   ("channels", .arr
     [.obj [("name", .str "Alpha"), ("id", .str "a"), ("roi", .num 2),
            ("spend", .num 1000), ("contribution_pct", .num (mkRat 27 100))],
      .obj [("name", .str "Beta"), ("id", .str "b"), ("roi", .num 5),
            ("spend", .num 2000), ("contribution_pct", .num (mkRat 1 2))]])]

/-- A claim record with a given raw number (the other fields are irrelevant
to `validate_claims`). -/
def mkTestClaim (q : ℚ) : Claim :=
  { display_value := "", raw_number := q, context := "", claim_type := "number",
    claimPrefix := "", position := 0 }

/-- Ten claims of which exactly the first seven match `tenSources7`. -/
def tenClaims7 : List Claim :=
  [mkTestClaim 1, mkTestClaim 2, mkTestClaim 3, mkTestClaim 4, mkTestClaim 5,
   mkTestClaim 6, mkTestClaim 7, mkTestClaim 1001, mkTestClaim 1002, mkTestClaim 1003]

/-- Source dataset carrying exactly the numbers 1..7. -/
def tenSources7 : JValue := .arr
  [.num 1, .num 2, .num 3, .num 4, .num 5, .num 6, .num 7]

/-- Ten claims of which exactly the first eight match `tenSources8`. -/
def tenClaims8 : List Claim :=
  [mkTestClaim 1, mkTestClaim 2, mkTestClaim 3, mkTestClaim 4, mkTestClaim 5,
   mkTestClaim 6, mkTestClaim 7, mkTestClaim 8, mkTestClaim 1001, mkTestClaim 1002]

/-- Source dataset carrying exactly the numbers 1..8. -/
def tenSources8 : JValue := .arr
  [.num 1, .num 2, .num 3, .num 4, .num 5, .num 6, .num 7, .num 8]

/-- The general fact-check result of the concrete run used as the C6
witness: one claim `2.0`, verified against `sampleData`. -/
def sampleGeneralResult : ClaimsResult :=
  { total_claims := 1, verified := 1, unverified := 0, errors := [], warnings := [],
    verified_claims := [⟨"2.0", 2, 2, "Total of 2.0 here"⟩],
    success_rate := some 1, valid := some true }

/-- The full merged report of that concrete run (the question classifies to
no metric and no ranking token or keyword, so the adaptive branch is the
general fact-check over the same single claim). -/
def sampleReport : ValidationReport :=
  { adaptive_validation := .general sampleGeneralResult,
    general_validation := sampleGeneralResult,
    overall_valid := true }

/-- The claim extracted from "pay 3.47 now" (used as the C10 witness). -/
def sampleNumberClaim : Claim :=
  { display_value := "3.47", raw_number := mkRat 347 100, context := "pay 3.47 now",
    claim_type := "number", claimPrefix := "", position := 4 }

theorem qMul_eq (a b : ℚ) : qMul a b = a * b := by
  unfold qMul
  rw [Rat.mkRat_eq_div]
  push_cast
  rw [← div_mul_div_comm, Rat.num_div_den, Rat.num_div_den]

theorem qSub_eq (a b : ℚ) : qSub a b = a - b := by
  unfold qSub
  rw [Rat.mkRat_eq_div]
  push_cast
  rw [sub_div, mul_div_mul_right _ _ (by exact_mod_cast b.den_nz : ((b.den : ℚ)) ≠ 0),
    mul_comm (b.num : ℚ) _,
    mul_div_mul_left _ _ (by exact_mod_cast a.den_nz : ((a.den : ℚ)) ≠ 0),
    Rat.num_div_den, Rat.num_div_den]

theorem qAbs_eq (q : ℚ) : qAbs q = |q| := by
  unfold qAbs
  rw [Rat.mkRat_eq_div]
  push_cast [Int.cast_natAbs]
  rw [← abs_of_pos (show (0 : ℚ) < (q.den : ℚ) by exact_mod_cast q.pos), ← abs_div,
    Rat.num_div_den]

theorem mkRat_hundred : (mkRat 100 1 : ℚ) = 100 := by
  rw [Rat.mkRat_eq_div]
  norm_num

theorem qMul_hundred (q : ℚ) : qMul q (mkRat 100 1) = q * 100 := by
  rw [qMul_eq, mkRat_hundred]

theorem qTol_iff (a b t : ℚ) (n : ℤ) (d : ℕ) (ht : (mkRat n d : ℚ) = t) :
    (qAbs (qSub a b) < mkRat n d) ↔ |a - b| < t := by
  rw [qAbs_eq, qSub_eq, ht]

theorem mem_extractFieldNumbers {x : ℚ} {k : String} {v : JValue}
    {fs : List (String × JValue)} (hm : (k, v) ∈ fs)
    (hx : x ∈ extractSourceNumbers v) : x ∈ extractFieldNumbers fs := by
  induction fs with
  | nil => cases hm
  | cons kv rest ih =>
    rcases List.mem_cons.mp hm with h | h
    · subst h
      exact List.mem_append_left _ hx
    · exact List.mem_append_right _ (ih h)

theorem mem_extractItemNumbers {x : ℚ} {v : JValue} {xs : List JValue}
    (hm : v ∈ xs) (hx : x ∈ extractSourceNumbers v) : x ∈ extractItemNumbers xs := by
  induction xs with
  | nil => cases hm
  | cons y rest ih =>
    rcases List.mem_cons.mp hm with h | h
    · subst h
      exact List.mem_append_left _ hx
    · exact List.mem_append_right _ (ih h)

/-- C1: for an empty claims list, `validate_claims` returns early with
`total_claims = 0` but with the `success_rate` and `valid` keys never
written — contrary to the claim, `valid` is not computed at all (the
`else: success_rate = 0.0` branch of the source is unreachable, so the code
contradicts its own legend that an empty input gets `success_rate = 0.0`
and hence `valid = False`). -/
theorem validateClaims_empty_omits_valid (d : JValue) :
    (validateClaims [] d).total_claims = 0 ∧
    (validateClaims [] d).success_rate = none ∧
    (validateClaims [] d).valid = none :=
  ⟨rfl, rfl, rfl⟩

/-- C2: `validate_response` does not always return a merged report: on a
response with no extractable numeric claims (here `"Hello"`, with an
unclassifiable question and a well-shaped dataset) the general result lacks
the `valid` key and the plain index `general_validation["valid"]` raises
`KeyError`, which escapes the engine boundary. -/
theorem validateResponse_keyError_on_no_claims :
    validateResponse "Hello" sampleData "" "" = .error (.keyError "valid") := by
  rfl

/-- C7: every numeric leaf `q` with `0 < q < 1` contributes both itself and
`round(q * 100, 2)` to the flattened source-number bag. -/
theorem flatten_percentage_normalization (d : JValue) (q : ℚ)
    (h : NumLeaf q d) (h0 : 0 < q) (h1 : q < 1) :
    q ∈ extractSourceNumbers d ∧ pyRound2 (q * 100) ∈ extractSourceNumbers d := by
  induction h with
  | here =>
    refine ⟨List.mem_cons_self _ _, ?_⟩
    have hcond : (0 < q ∧ q < 1) := ⟨h0, h1⟩
    simp only [extractSourceNumbers, if_pos hcond]
    exact List.mem_cons_of_mem _
      (List.mem_singleton.mpr (congrArg pyRound2 (qMul_hundred q).symm))
  | inObj k v fs hm _ ih =>
    exact ⟨mem_extractFieldNumbers hm ih.1, mem_extractFieldNumbers hm ih.2⟩
  | inArr v xs hm _ ih =>
    exact ⟨mem_extractItemNumbers hm ih.1, mem_extractItemNumbers hm ih.2⟩

/-- C7 witness: the source value `0.27` puts both `0.27` and `27.0` in the
bag (and the derived value is exactly `27`). -/
theorem flatten_percentage_normalization_witness :
    ((mkRat 27 100 : ℚ) ∈ extractSourceNumbers (.num (mkRat 27 100)) ∧
      pyRound2 ((mkRat 27 100 : ℚ) * 100) ∈ extractSourceNumbers (.num (mkRat 27 100))) ∧
    pyRound2 ((mkRat 27 100 : ℚ) * 100) = 27 :=
  ⟨flatten_percentage_normalization _ _ NumLeaf.here (by decide) (by decide),
   by rw [← qMul_hundred]; decide⟩

/-- C8: `validate_claims` verifies a claim exactly when some flattened
source number is within strict absolute tolerance `0.001`; at source value
`3.0`, a claim of `3.0005` verifies and a claim of `3.002` does not. -/
theorem claim_tolerance_boundary :
    (∀ (c : Claim) (d : JValue),
      ((validateClaims [c] d).verified = 1 ↔
        ∃ s ∈ extractSourceNumbers d, |c.raw_number - s| < (1 : ℚ)/1000)) ∧
    (validateClaims [mkTestClaim (mkRat 30005 10000)] (.num 3)).verified = 1 ∧
    (validateClaims [mkTestClaim (mkRat 3002 1000)] (.num 3)).verified = 0 := by
  refine ⟨?_, by decide, by decide⟩
  intro c d
  have hv : (validateClaims [c] d).verified =
      (claimsStep (extractSourceNumbers d)
        ⟨1, 0, 0, [], [], [], none, none⟩ c).verified := rfl
  rw [hv]
  unfold claimsStep
  have htol : ∀ a b : ℚ, (qAbs (qSub a b) < mkRat 1 1000) ↔ |a - b| < (1 : ℚ)/1000 :=
    fun a b => qTol_iff a b _ 1 1000 (by rw [Rat.mkRat_eq_div]; norm_num)
  cases hf : (extractSourceNumbers d).find?
      (fun s => decide (qAbs (qSub c.raw_number s) < mkRat 1 1000)) with
  | none =>
    simp only [hf]
    constructor
    · intro h
      cases h
    · intro ⟨s, hs, hlt⟩
      have hns := (List.find?_eq_none.mp hf) s hs
      simp only [decide_eq_true_iff, htol] at hns
      exact absurd hlt hns
  | some s0 =>
    simp only [hf]
    constructor
    · intro _
      have hp := List.find?_some hf
      exact ⟨s0, List.mem_of_find?_eq_some hf, (htol _ _).mp (of_decide_eq_true hp)⟩
    · intro _
      trivial

theorem foldl_claimsStep_total (src : List ℚ) (claims : List Claim) (r : ClaimsResult) :
    (claims.foldl (claimsStep src) r).total_claims = r.total_claims := by
  induction claims generalizing r with
  | nil => rfl
  | cons c cs ih =>
    rw [List.foldl_cons, ih]
    unfold claimsStep
    cases src.find? (fun s => decide (qAbs (qSub c.raw_number s) < mkRat 1 1000)) <;> rfl

/-- C9: for a non-empty claims list, `validate_claims` reports
`success_rate = verified / total` and `valid = (success_rate > 0.7)` with a
strict comparison. -/
theorem validateClaims_success_rate (claims : List Claim) (d : JValue) (h : claims ≠ []) :
    (validateClaims claims d).success_rate =
      some (((validateClaims claims d).verified : ℚ) /
        ((validateClaims claims d).total_claims : ℚ)) ∧
    (validateClaims claims d).valid =
      some (decide (((7 : ℚ)/10) < ((validateClaims claims d).verified : ℚ) /
        ((validateClaims claims d).total_claims : ℚ))) := by
  cases claims with
  | nil => exact absurd rfl h
  | cons c cs =>
    have hbase :
        validateClaims (c :: cs) d =
          (let r := (c :: cs).foldl (claimsStep (extractSourceNumbers d))
            ⟨(c :: cs).length, 0, 0, [], [], [], none, none⟩
          let rate : ℚ := if 0 < r.total_claims then mkRat r.verified r.total_claims else 0
          { r with success_rate := some rate, valid := some (decide (mkRat 7 10 < rate)) }) :=
      rfl
    rw [hbase]
    have htot :
        ((c :: cs).foldl (claimsStep (extractSourceNumbers d))
          ⟨(c :: cs).length, 0, 0, [], [], [], none, none⟩).total_claims =
          (c :: cs).length :=
      foldl_claimsStep_total _ _ _
    have hpos : 0 < ((c :: cs).foldl (claimsStep (extractSourceNumbers d))
        ⟨(c :: cs).length, 0, 0, [], [], [], none, none⟩).total_claims := by
      rw [htot]
      exact Nat.succ_pos _
    have hmk : ∀ v t : Nat, (mkRat v t : ℚ) = (v : ℚ) / (t : ℚ) := by
      intro v t
      rw [Rat.mkRat_eq_div]
      norm_num
    have hmk710 : (mkRat 7 10 : ℚ) = (7 : ℚ)/10 := by
      rw [Rat.mkRat_eq_div]
      norm_num
    constructor
    · simp only [if_pos hpos, hmk]
    · simp only [if_pos hpos, hmk, hmk710]

/-- C9 witness: with 10 claims and exactly 7 verified, `success_rate = 0.7`
and `valid = False` (strict threshold); with 8 verified, `valid = True`. -/
theorem validateClaims_success_rate_witness :
    tenClaims7 ≠ [] ∧
    (validateClaims tenClaims7 tenSources7).success_rate = some (mkRat 7 10) ∧
    (validateClaims tenClaims7 tenSources7).valid = some false ∧
    (validateClaims tenClaims8 tenSources8).valid = some true := by
  have h7 := validateClaims_success_rate tenClaims7 tenSources7 (by decide)
  have h8 := validateClaims_success_rate tenClaims8 tenSources8 (by decide)
  refine ⟨by decide, ?_, ?_, ?_⟩
  · rw [h7.1]
    rw [show ((validateClaims tenClaims7 tenSources7).verified : ℚ) /
        ((validateClaims tenClaims7 tenSources7).total_claims : ℚ) =
        mkRat (validateClaims tenClaims7 tenSources7).verified
          (validateClaims tenClaims7 tenSources7).total_claims by
      rw [Rat.mkRat_eq_div]; norm_num]
    decide
  · rw [h7.2]
    congr 1
    rw [show ((validateClaims tenClaims7 tenSources7).verified : ℚ) /
        ((validateClaims tenClaims7 tenSources7).total_claims : ℚ) =
        mkRat (validateClaims tenClaims7 tenSources7).verified
          (validateClaims tenClaims7 tenSources7).total_claims by
      rw [Rat.mkRat_eq_div]; norm_num]
    rw [show ((7 : ℚ)/10) = mkRat 7 10 by rw [Rat.mkRat_eq_div]; norm_num]
    decide
  · rw [h8.2]
    congr 1
    rw [show ((validateClaims tenClaims8 tenSources8).verified : ℚ) /
        ((validateClaims tenClaims8 tenSources8).total_claims : ℚ) =
        mkRat (validateClaims tenClaims8 tenSources8).verified
          (validateClaims tenClaims8 tenSources8).total_claims by
      rw [Rat.mkRat_eq_div]; norm_num]
    rw [show ((7 : ℚ)/10) = mkRat 7 10 by rw [Rat.mkRat_eq_div]; norm_num]
    decide

theorem exceptPureBind {ε α β : Type} (x : Except ε α) (f : α → β) :
    (x >>= fun v => pure (f v) : Except ε β) = x.map f := by
  cases x <;> rfl

/-- C6: whenever `validate_response` returns a report, `overall_valid` is
the general fact-check's `valid` AND-ed with the adaptive result's `valid`
key when present and with `True` when absent; in particular an adaptive
result without a `valid` key cannot make `overall_valid` false. -/
theorem validateResponse_overall_valid (ai q ch : String) (d : JValue)
    (r : ValidationReport) (h : validateResponse ai d q ch = .ok r) :
    ∃ g, r.general_validation.valid = some g ∧
      r.overall_valid = (g && (adaptiveValidKey r.adaptive_validation).getD true) ∧
      (adaptiveValidKey r.adaptive_validation = none → r.overall_valid = g) := by
  unfold validateResponse at h
  cases ha : validateAdaptive ai d q ch with
  | error e =>
    rw [ha] at h
    simp only [Bind.bind, Except.bind] at h
    cases h
  | ok a =>
    rw [ha] at h
    simp only [Bind.bind, Except.bind] at h
    cases hv : (validateClaims (extractNumericalClaims ai) d).valid with
    | none =>
      rw [hv] at h
      cases h
    | some gv =>
      rw [hv] at h
      simp only at h
      cases h
      refine ⟨gv, hv, rfl, ?_⟩
      intro hn
      rw [hn]
      simp [Option.getD, Bool.and_true]

/-- C6 witness: a concrete full run through the general branch, where the
adaptive result carries `valid = True` and overall validity holds. -/
theorem validateResponse_overall_valid_witness :
    validateResponse "Total of 2.0 here" sampleData "what is it" "" = .ok sampleReport ∧
    (∃ g, sampleReport.general_validation.valid = some g ∧
      sampleReport.overall_valid =
        (g && (adaptiveValidKey sampleReport.adaptive_validation).getD true) ∧
      (adaptiveValidKey sampleReport.adaptive_validation = none →
        sampleReport.overall_valid = g)) :=
  ⟨by decide, validateResponse_overall_valid "Total of 2.0 here" "what is it" ""
    sampleData sampleReport (by decide)⟩

theorem mem_insertDesc {key : JValue → ℚ} {x y : JValue} {l : List JValue}
    (h : y ∈ insertDesc key x l) : y = x ∨ y ∈ l := by
  induction l with
  | nil =>
    rcases List.mem_singleton.mp h with h1
    exact Or.inl h1
  | cons z zs ih =>
    unfold insertDesc at h
    by_cases hc : key z ≤ key x
    · rw [if_pos hc] at h
      rcases List.mem_cons.mp h with h1 | h1
      · exact Or.inl h1
      · exact Or.inr h1
    · rw [if_neg hc] at h
      rcases List.mem_cons.mp h with h1 | h1
      · exact Or.inr (h1 ▸ List.mem_cons_self _ _)
      · rcases ih h1 with h2 | h2
        · exact Or.inl h2
        · exact Or.inr (List.mem_cons_of_mem _ h2)

theorem mem_sortDesc {key : JValue → ℚ} {y : JValue} {l : List JValue}
    (h : y ∈ sortDesc key l) : y ∈ l := by
  induction l with
  | nil => cases h
  | cons z zs ih =>
    rcases mem_insertDesc h with h1 | h1
    · exact h1 ▸ List.mem_cons_self _ _
    · exact List.mem_cons_of_mem _ (ih h1)

theorem mentionedLoop_names {al : List Char} {chs : List JValue} {ms : List String}
    (h : mentionedLoop al chs = .ok ms) :
    ∀ ch ∈ chs, ∃ s, dictIndex ch "name" = .ok (.str s) := by
  induction chs generalizing ms with
  | nil => intro ch hc; cases hc
  | cons c cs ih =>
    intro ch hc
    unfold mentionedLoop at h
    cases hd : dictIndex c "name" with
    | error e =>
      rw [hd] at h
      cases h
    | ok v =>
      rw [hd] at h
      cases v with
      | str s =>
        simp only [expectStr, Bind.bind, Except.bind, pure, Except.pure] at h
        cases ht : mentionedLoop al cs with
        | error e =>
          rw [ht] at h
          cases h
        | ok tail =>
          rw [ht] at h
          rcases List.mem_cons.mp hc with h1 | h1
          · exact ⟨s, h1 ▸ hd⟩
          · exact ih ht ch h1
      | num q =>
        simp only [expectStr, Bind.bind, Except.bind] at h
        cases h
      | obj fs =>
        simp only [expectStr, Bind.bind, Except.bind] at h
        cases h
      | arr xs =>
        simp only [expectStr, Bind.bind, Except.bind] at h
        cases h
      | null =>
        simp only [expectStr, Bind.bind, Except.bind] at h
        cases h

theorem namesOf_ok {l : List JValue}
    (h : ∀ ch ∈ l, ∃ s, dictIndex ch "name" = .ok (.str s)) :
    ∃ ns, namesOf l = .ok ns := by
  induction l with
  | nil => exact ⟨[], rfl⟩
  | cons c cs ih =>
    obtain ⟨s, hs⟩ := h c (List.mem_cons_self _ _)
    obtain ⟨ns, hns⟩ := ih (fun ch hc => h ch (List.mem_cons_of_mem _ hc))
    refine ⟨s :: ns, ?_⟩
    unfold namesOf
    rw [hs]
    simp only [expectStr, Bind.bind, Except.bind, pure, Except.pure]
    rw [hns]

/-- C5 (counterexample): with a well-shaped dataset whose entities lack the
metric `"xyz"` entirely, `validate_ranking` does not fail with
`{valid: False, error: "metric not found"}` — it silently ranks with the
default value `0` and returns a normal ranking result. -/
theorem validateRanking_missing_metric_cex :
    validateRanking "beta and alpha" "xyz" sampleData =
      .ok (.ok "xyz" ["Alpha", "Beta"] ["Alpha", "Beta"] 2 false) ∧
    (validateRanking "beta and alpha" "xyz" sampleData).toOption.map
      RankingResult.isFailed = some false :=
  ⟨by decide, by decide⟩

/-- C5 (amended): `validate_ranking` never returns the guarded
`{valid: False, error}` dict: the sort key uses `.get(metric, 0)` which
raises no `KeyError`, and `ch['name']` was already read successfully for
every channel by the mention loop before the guarded block, so the
`except KeyError` branch is unreachable. -/
theorem validateRanking_never_fails (ai metric : String) (d : JValue)
    (r : RankingResult) (h : validateRanking ai metric d = .ok r) :
    r.isFailed = false := by
  unfold validateRanking at h
  cases hch : getChannels d with
  | error e =>
    rw [hch] at h
    cases h
  | ok chs =>
    rw [hch] at h
    simp only [Bind.bind, Except.bind] at h
    cases hm : mentionedLoop (pyLower ai.data) chs with
    | error e =>
      rw [hm] at h
      cases h
    | ok mentioned =>
      rw [hm] at h
      simp only at h
      obtain ⟨ns, hns⟩ := namesOf_ok
        (fun ch hc => mentionedLoop_names hm ch (mem_sortDesc hc))
      rw [hns] at h
      cases h
      rfl

/-- C5 witness for the amended claim: a concrete run (no channel mentioned,
existing metric) returning a normal, non-failed result. -/
theorem validateRanking_never_fails_witness :
    validateRanking "nothing" "roi" sampleData =
      .ok (.ok "roi" [] ["Beta", "Alpha"] 0 false) ∧
    RankingResult.isFailed (.ok "roi" [] ["Beta", "Alpha"] 0 false) = false :=
  ⟨by decide, validateRanking_never_fails "nothing" "roi" sampleData _ (by decide)⟩

/-- C4 (counterexample): for the question "top channels by
contribution_pct" (classifier finds no metric, a ranking keyword and the
metric token `contribution_pct` are both present), the dispatcher runs the
Ranking Validator with metric `"roi"`, not with the first matching metric
token `"contribution_pct"` that the claim prescribes: the loop re-tests the
keyword disjunct at every iteration, so a keyword always selects `"roi"`. -/
theorem validateAdaptive_ranking_metric_cex :
    validateAdaptive "alpha" sampleData "top channels by contribution_pct" "" =
      .ok (.ranking (.ok "roi" ["Alpha"] ["Beta", "Alpha"] 0 false)) ∧
    specPredictedRankingMetric "top channels by contribution_pct" =
      some "contribution_pct" ∧
    ("roi" : String) ≠ "contribution_pct" :=
  ⟨by decide, by decide, by decide⟩

/-- C4 (amended): the dispatcher's actual selection order.  A metric found
by the classifier runs the Specific-Query Validator; otherwise a ranking
keyword (as a substring) always selects the Ranking Validator with metric
`"roi"`; otherwise the first ranking-metric token occurring as a substring
selects the Ranking Validator with that token; otherwise the General
Fact-Checker runs. -/
theorem validateAdaptive_dispatch (ai q ch : String) (d : JValue) :
    (∀ m, extractMetricFromQuestion q = some m →
      validateAdaptive ai d q ch = (validateSpecificQuery q ai ch d).map .specific) ∧
    (extractMetricFromQuestion q = none →
      hasRankingKeyword (pyLower q.data) = true →
      validateAdaptive ai d q ch = (validateRanking ai "roi" d).map .ranking) ∧
    (extractMetricFromQuestion q = none →
      hasRankingKeyword (pyLower q.data) = false →
      ∀ m, rankingMetricTokens.find? (fun t => pyIn t.data (pyLower q.data)) = some m →
        validateAdaptive ai d q ch = (validateRanking ai m d).map .ranking) ∧
    (extractMetricFromQuestion q = none →
      hasRankingKeyword (pyLower q.data) = false →
      rankingMetricTokens.find? (fun t => pyIn t.data (pyLower q.data)) = none →
      validateAdaptive ai d q ch =
        .ok (.general (validateClaims (extractNumericalClaims ai) d))) := by
  refine ⟨?_, ?_, ?_, ?_⟩
  · intro m hm
    unfold validateAdaptive
    rw [hm]
    exact exceptPureBind _ _
  · intro h0 hkw
    unfold validateAdaptive
    rw [h0]
    simp only [rankingMetricTokens, List.find?, hkw, Bool.or_true]
    exact exceptPureBind _ _
  · intro h0 hkw m hfind
    unfold validateAdaptive
    rw [h0]
    simp only [hkw, Bool.or_false]
    rw [hfind]
    exact exceptPureBind _ _
  · intro h0 hkw hfind
    unfold validateAdaptive
    rw [h0]
    simp only [hkw, Bool.or_false]
    rw [hfind]
    rfl

/-- C4 witness for the amended claim: at the counterexample question the
classifier finds nothing, a ranking keyword is present, and the dispatcher
therefore runs the Ranking Validator with metric `"roi"`. -/
theorem validateAdaptive_dispatch_witness :
    extractMetricFromQuestion "top channels by contribution_pct" = none ∧
    hasRankingKeyword (pyLower ("top channels by contribution_pct" : String).data) = true ∧
    validateAdaptive "alpha" sampleData "top channels by contribution_pct" "" =
      (validateRanking "alpha" "roi" sampleData).map .ranking :=
  ⟨by decide, by decide,
    (validateAdaptive_dispatch "alpha" "top channels by contribution_pct" "" sampleData).2.1
      (by decide) (by decide)⟩

theorem firstOccurrences_nil : firstOccurrences [] = [] := by
  rw [firstOccurrences.eq_def]

theorem firstOccurrences_cons (x : ℚ × String) (xs : List (ℚ × String)) :
    firstOccurrences (x :: xs) = x :: firstOccurrences (xs.filter (fun y => y ≠ x)) := by
  rw [firstOccurrences.eq_def]

theorem firstOccurrences_subset {y : ℚ × String} {l : List (ℚ × String)}
    (h : y ∈ firstOccurrences l) : y ∈ l := by
  induction l using firstOccurrences.induct with
  | case1 =>
    rw [firstOccurrences_nil] at h
    cases h
  | case2 x xs ih =>
    rw [firstOccurrences_cons] at h
    rcases List.mem_cons.mp h with h1 | h1
    · exact h1 ▸ List.mem_cons_self _ _
    · exact List.mem_cons_of_mem _ (List.mem_of_mem_filter (ih h1))

theorem firstOccurrences_nodup (l : List (ℚ × String)) : (firstOccurrences l).Nodup := by
  induction l using firstOccurrences.induct with
  | case1 =>
    rw [firstOccurrences_nil]
    exact List.nodup_nil
  | case2 x xs ih =>
    rw [firstOccurrences_cons]
    refine List.nodup_cons.mpr ⟨?_, ih⟩
    intro hx
    have hm := firstOccurrences_subset hx
    have hne := List.of_mem_filter hm
    simp at hne

theorem dedupAux_subset {c : Claim} {seen : List (ℚ × String)} {l : List Claim}
    (h : c ∈ dedupAux seen l) : c ∈ l := by
  induction l generalizing seen with
  | nil => cases h
  | cons x xs ih =>
    unfold dedupAux at h
    by_cases hk : claimKey x ∈ seen
    · rw [if_pos hk] at h
      exact List.mem_cons_of_mem _ (ih h)
    · rw [if_neg hk] at h
      rcases List.mem_cons.mp h with h1 | h1
      · exact h1 ▸ List.mem_cons_self _ _
      · exact List.mem_cons_of_mem _ (ih h1)

theorem dedupAux_map_key (seen : List (ℚ × String)) (l : List Claim) :
    (dedupAux seen l).map claimKey =
      firstOccurrences ((l.map claimKey).filter (fun k => decide (k ∉ seen))) := by
  induction l generalizing seen with
  | nil =>
    simp [dedupAux, firstOccurrences_nil]
  | cons c cs ih =>
    unfold dedupAux
    by_cases hk : claimKey c ∈ seen
    · rw [if_pos hk]
      have hdrop : decide (claimKey c ∉ seen) = false := by
        simp [hk]
      simp only [List.map_cons, List.filter_cons, hdrop, if_false, Bool.false_eq_true]
      exact ih seen
    · rw [if_neg hk]
      have hkeep : decide (claimKey c ∉ seen) = true := by
        simp [hk]
      simp only [List.map_cons, List.filter_cons, hkeep, if_true]
      rw [firstOccurrences_cons, ih (claimKey c :: seen)]
      congr 1
      refine congrArg firstOccurrences ?_
      rw [List.filter_filter]
      apply List.filter_congr
      intro k _
      simp [List.mem_cons, not_or, Bool.and_comm]

/-- C3: no two extracted claims share the `(raw_number, claim_type)` key,
and the kept keys are exactly the first occurrences (in processing order)
of the candidate keys — first occurrence wins, later matches with the same
key are dropped. -/
theorem extract_no_duplicate_keys (text : String) :
    ((extractNumericalClaims text).map claimKey).Nodup ∧
    (extractNumericalClaims text).map claimKey =
      firstOccurrences ((extractCandidates text.data).map claimKey) := by
  have hfilter :
      ((extractCandidates text.data).map claimKey).filter
        (fun k => decide (k ∉ ([] : List (ℚ × String)))) =
        (extractCandidates text.data).map claimKey := by
    apply List.filter_eq_self.mpr
    intro a _
    simp
  have h := dedupAux_map_key [] (extractCandidates text.data)
  rw [hfilter] at h
  have heq : extractNumericalClaims text = dedupAux [] (extractCandidates text.data) := rfl
  rw [heq, h]
  exact ⟨firstOccurrences_nodup _, rfl⟩

theorem finditerAux_mem {f : Nat → Option MRes} {len : Nat} {m : MRes} :
    ∀ {i fuel : Nat}, m ∈ finditerAux f len i fuel → ∃ j, f j = some m := by
  intro i fuel
  induction fuel generalizing i with
  | zero => intro h; cases h
  | succ fuel ih =>
    intro h
    unfold finditerAux at h
    by_cases hle : len < i
    · rw [if_pos hle] at h
      cases h
    · rw [if_neg hle] at h
      cases hf : f i with
      | some r =>
        rw [hf] at h
        rcases List.mem_cons.mp h with h1 | h1
        · exact ⟨i, h1 ▸ hf⟩
        · exact ih h1
      | none =>
        rw [hf] at h
        exact ih h

theorem candidateOfMatch_fields {text : List Char} {ty : String} {m : MRes} {c : Claim}
    (h : candidateOfMatch text ty m = some c) :
    c.claim_type = ty ∧ c.display_value = String.mk m.m0 := by
  unfold candidateOfMatch at h
  split at h
  split at h
  · cases h
  · split at h
    · cases h
    · cases h
      exact ⟨rfl, rfl⟩

theorem takeWhile_digit_filter (l : List Char) :
    ((l.takeWhile Char.isDigit).filter Char.isDigit) = l.takeWhile Char.isDigit :=
  List.filter_eq_self.mpr (fun _ ha => List.mem_takeWhile_imp ha)

theorem length_pos_of_not_isEmpty {l : List Char} (h : ¬ l.isEmpty = true) :
    0 < l.length := by
  cases l with
  | nil => simp at h
  | cons a t => simp

/-- The bare-number matcher only ever matches a token with at least two
digit characters: either a maximal digit run of length at least two, or a
run, a dot and at least one more digit. -/
theorem matchNumber_two_digits {text : List Char} {i : Nat} {m : MRes}
    (h : matchNumber text i = some m) :
    2 ≤ (m.m0.filter Char.isDigit).length := by
  unfold matchNumber at h
  split at h
  · cases h
  · dsimp only at h
    split at h
    · cases h
    · rename_i hAne
      have hApos : 0 < ((text.drop i).takeWhile Char.isDigit).length :=
        length_pos_of_not_isEmpty hAne
      split at h
      · rename_i d r hcons
        split at h
        · rename_i hd
          cases h
          show 2 ≤ ((((text.drop i).takeWhile Char.isDigit) ++
            '.' :: d :: r.takeWhile Char.isDigit).filter Char.isDigit).length
          rw [List.filter_append, List.length_append, takeWhile_digit_filter]
          have h2 : 1 ≤ (('.' :: d :: r.takeWhile Char.isDigit).filter Char.isDigit).length := by
            rw [List.filter_cons_of_neg (by decide), List.filter_cons_of_pos hd]
            simp
          omega
        · split at h
          · rename_i h2
            cases h
            show 2 ≤ (((text.drop i).takeWhile Char.isDigit).filter Char.isDigit).length
            rw [takeWhile_digit_filter]
            exact h2
          · cases h
      · split at h
        · rename_i h2
          cases h
          show 2 ≤ (((text.drop i).takeWhile Char.isDigit).filter Char.isDigit).length
          rw [takeWhile_digit_filter]
          exact h2
        · cases h

/-- A claim of type `"number"` in the candidate stream comes from the
bare-number matcher, and its display value is that match's text. -/
theorem number_candidate_from_matchNumber {text : List Char} {c : Claim}
    (hc : c ∈ extractCandidates text) (hty : c.claim_type = "number") :
    ∃ j m, matchNumber text j = some m ∧ c.display_value = String.mk m.m0 := by
  unfold extractCandidates at hc
  rcases List.mem_flatMap.mp hc with ⟨p, hp, hcp⟩
  have hp5 : p = (matchCurrency, "currency") ∨ p = (matchRoi, "roi_metric") ∨
      p = (matchPercent, "percentage") ∨ p = (matchSaturation, "saturation") ∨
      p = (matchNumber, "number") := by
    simpa [matcherList] using hp
  rcases List.mem_filterMap.mp hcp with ⟨m, hm, hsome⟩
  have hfields := candidateOfMatch_fields hsome
  rcases hp5 with h5 | h5 | h5 | h5 | h5 <;> subst h5
  · rw [hfields.1] at hty
    exact absurd hty (by decide)
  · rw [hfields.1] at hty
    exact absurd hty (by decide)
  · rw [hfields.1] at hty
    exact absurd hty (by decide)
  · rw [hfields.1] at hty
    exact absurd hty (by decide)
  · obtain ⟨j, hj⟩ := finditerAux_mem hm
    exact ⟨j, m, hj, hfields.2⟩

/-- C10: extracted claims of type `number` always display at least two
digit characters (the bare-number pattern `(?<!\$)(\d+\.?\d+)` needs two),
and the text "The score is 5", whose only number is a standalone single
digit not followed by `%` and not preceded by `$`, yields no claims at
all. -/
theorem single_digit_never_number_claim :
    (∀ (text : String) (c : Claim), c ∈ extractNumericalClaims text →
      c.claim_type = "number" →
      2 ≤ (c.display_value.data.filter Char.isDigit).length) ∧
    extractNumericalClaims "The score is 5" = [] := by
  refine ⟨?_, by decide⟩
  intro text c hc hty
  have hcand : c ∈ extractCandidates text.data := dedupAux_subset hc
  obtain ⟨j, m, hj, hdisp⟩ := number_candidate_from_matchNumber hcand hty
  rw [hdisp]
  exact matchNumber_two_digits hj

/-- C10 witness: a two-digit decimal is extracted as a `number` claim and
satisfies the digit bound. -/
theorem single_digit_never_number_claim_witness :
    sampleNumberClaim ∈ extractNumericalClaims "pay 3.47 now" ∧
    2 ≤ (sampleNumberClaim.display_value.data.filter Char.isDigit).length :=
  ⟨by decide,
    single_digit_never_number_claim.1 "pay 3.47 now" sampleNumberClaim (by decide) rfl⟩
